import Mathlib

/-!
Shallow embedding of the value/state engine of the dual-handle range slider
(`Range.tsx`, its hooks `useDraggable` / `useKeyboardNavigation`, and the
index-based variant `useRangeCalculations` / `useRangeState`).

Numbers are modelled as rationals (`ℚ`).  `Math.round` rounds half towards
positive infinity, as does the integer chosen by `Number.prototype.toFixed`;
both are modelled by `jsRound`.  `Math.abs` is `absQ`, `Math.max/Math.min`
clamping is `clampQ`.  The nonempty `sortedFixedValues` array is modelled as
a head/tail pair `Option (ℚ × List ℚ)` (`none` = continuous mode), matching
the `Array.prototype.reduce` call that requires a nonempty array.
-/

namespace MangoRange

/-- JS `Math.abs`. -/
def absQ (x : ℚ) : ℚ := if x < 0 then -x else x

/-- JS `Math.round`: round half towards positive infinity.  The integer produced
by `toFixed` follows the same tie rule ("pick the larger n"). -/
def jsRound (x : ℚ) : ℤ := ⌊x + 1/2⌋

/-- Model of `parseFloat(x.toFixed(d))`: round `x` to `d` decimal digits. -/
def toFixedVal (d : ℕ) (x : ℚ) : ℚ := (jsRound (x * 10 ^ d) : ℚ) / 10 ^ d

/-- The pattern `Math.max(lo, Math.min(hi, x))`, the clamp pattern used throughout. -/
def clampQ (lo hi x : ℚ) : ℚ := max lo (min hi x)

/-- The callback of the `reduce` used to snap to `sortedFixedValues`:
`(prev, curr) => Math.abs(curr - raw) < Math.abs(prev - raw) ? curr : prev`. -/
def pickCloser (q prev curr : ℚ) : ℚ :=
  if absQ (curr - q) < absQ (prev - q) then curr else prev

/-- Model of `sortedFixedValues.reduce((prev, curr) => ...)` with no initial value:
the head seeds the accumulator and the tail is scanned left to right. -/
def closestFixed (q h : ℚ) (t : List ℚ) : ℚ := t.foldl (pickCloser q) h

/-- Which thumb an operation concerns (`"min"` / `"max"`). -/
inductive Handle
  | hmin
  | hmax
deriving DecidableEq, Repr

/-- Model of `valueToPercentage` from `Range.tsx`: `((value - min) / (max - min)) * 100`. -/
def valueToPercentage (mn mx value : ℚ) : ℚ := (value - mn) / (mx - mn) * 100

/-- Model of `percentageToValue` from `Range.tsx`: inverse mapping followed by snapping
(`reduce` over the fixed set, or step rounding + `toFixed` + clamp). -/
def percentageToValue (sfv : Option (ℚ × List ℚ)) (mn mx step : ℚ) (d : ℕ)
    (percentage : ℚ) : ℚ :=
  let rawValue := mn + percentage / 100 * (mx - mn)
  match sfv with
  | some (h, t) => closestFixed rawValue h t
  | none =>
    let steppedValue := (jsRound (rawValue / step) : ℚ) * step
    let roundedValue := toFixedVal d steppedValue
    clampQ mn mx roundedValue

/-- Model of `calculateValue` (text-edit commit path): clamp the parsed input first
(`sortedFixedValues[0]` / `[length-1]` boundaries, or `[min, max]`), then
snap; note there is no clamp after the step rounding in continuous mode. -/
def calculateValue (numValue : ℚ) (sfv : Option (ℚ × List ℚ))
    (mn mx step : ℚ) (d : ℕ) : ℚ :=
  match sfv with
  | some (h, t) =>
    let clampedValue := clampQ h (t.getLastD h) numValue
    closestFixed clampedValue h t
  | none =>
    let clampedValue := clampQ mn mx numValue
    let steppedValue := (jsRound (clampedValue / step) : ℚ) * step
    toFixedVal d steppedValue

/-- Model of `applyPushLogic`: ordering policy applied to an edited handle value. -/
def applyPushLogic (handle : Handle) (calculatedValue currentMinValue currentMaxValue : ℚ)
    (allowPush : Bool) : ℚ × ℚ :=
  match handle with
  | .hmin =>
    let finalMinValue := calculatedValue
    if allowPush then
      if finalMinValue > currentMaxValue then (finalMinValue, finalMinValue)
      else (finalMinValue, currentMaxValue)
    else
      if finalMinValue > currentMaxValue then (currentMaxValue, currentMaxValue)
      else (finalMinValue, currentMaxValue)
  | .hmax =>
    let finalMaxValue := calculatedValue
    if allowPush then
      if finalMaxValue < currentMinValue then (finalMaxValue, finalMaxValue)
      else (currentMinValue, finalMaxValue)
    else
      if finalMaxValue < currentMinValue then (currentMinValue, currentMinValue)
      else (currentMinValue, finalMaxValue)

/-- The expression `sortedFixedValues ? sortedFixedValues[0] : min` (the `minLimit`). -/
def minLimitOf (sfv : Option (ℚ × List ℚ)) (mn : ℚ) : ℚ :=
  match sfv with
  | some (h, _) => h
  | none => mn

/-- The expression `sortedFixedValues ? sortedFixedValues[length - 1] : max` (the `maxLimit`). -/
def maxLimitOf (sfv : Option (ℚ × List ℚ)) (mx : ℚ) : ℚ :=
  match sfv with
  | some (h, t) => t.getLastD h
  | none => mx

/-- Model of `getAdjacentValue`: next/previous value on the grid.  Fixed mode indexes
the array (`indexOf`, clamped neighbour); continuous mode adds or subtracts
`step` and clamps to the domain. -/
def getAdjacentValue (currentValue : ℚ) (next : Bool) (sfv : Option (ℚ × List ℚ))
    (step mn mx : ℚ) : ℚ :=
  match sfv with
  | some (h, t) =>
    let l := h :: t
    match l.findIdx? (fun x => decide (x = currentValue)) with
    | none => currentValue
    | some currentIndex =>
      if next then l.getD (min (currentIndex + 1) (l.length - 1)) 0
      else l.getD (currentIndex - 1) 0
  | none =>
    if next then min (currentValue + step) mx
    else max (currentValue - step) mn

/-- The four keyboard actions bound to Home / End / Arrow keys. -/
inductive KbAction
  | moveToMin
  | moveToMax
  | increment
  | decrement
deriving DecidableEq, Repr

/-- Model of `handleKeyboardAction`: computes the next committed pair for a keyboard
action on the handle at `elementIndex` (0 = min thumb, 1 = max thumb), or
`none` when the code returns `null` (no commit). -/
def handleKeyboardAction (action : KbAction) (elementIndex : ℕ)
    (minValue maxValue : ℚ) (sfv : Option (ℚ × List ℚ))
    (mn mx step : ℚ) (allowPush : Bool) : Option (ℚ × ℚ) :=
  let handle : Handle := if elementIndex = 0 then .hmin else .hmax
  match action with
  | .moveToMin =>
    let minLimit := minLimitOf sfv mn
    match handle with
    | .hmin => if minValue = minLimit then none else some (minLimit, maxValue)
    | .hmax =>
      if allowPush then some (minLimit, minLimit)
      else
        let newMaxValue := max minLimit minValue
        if maxValue = newMaxValue then none else some (minValue, newMaxValue)
  | .moveToMax =>
    let maxLimit := maxLimitOf sfv mx
    match handle with
    | .hmin =>
      if allowPush then some (maxLimit, maxLimit)
      else
        let newMinValue := min maxLimit maxValue
        if minValue = newMinValue then none else some (newMinValue, maxValue)
    | .hmax => if maxValue = maxLimit then none else some (minValue, maxLimit)
  | .increment =>
    let currentValue := match handle with | .hmin => minValue | .hmax => maxValue
    let newValue := getAdjacentValue currentValue true sfv step mn mx
    if newValue = currentValue then none
    else
      match handle with
      | .hmin =>
        if allowPush = true ∧ newValue > maxValue then some (newValue, newValue)
        else some (min newValue maxValue, maxValue)
      | .hmax => some (minValue, max newValue minValue)
  | .decrement =>
    let currentValue := match handle with | .hmin => minValue | .hmax => maxValue
    let newValue := getAdjacentValue currentValue false sfv step mn mx
    if newValue = currentValue then none
    else
      match handle with
      | .hmin => some (min newValue maxValue, maxValue)
      | .hmax =>
        if allowPush = true ∧ newValue < minValue then some (newValue, newValue)
        else some (minValue, max newValue minValue)

/-- The commit decision of `handleDragMove` once the pointer position has been
converted to a snapped `newValue` (the geometric `clientX/clientY → percentage
→ percentageToValue` part is applied by the caller).  `minDr`/`maxDr` say
whether each handle is in `draggingHandles`; `none` means no commit. -/
def handleDragMove (handle : Handle) (newValue curMin curMax : ℚ)
    (minDr maxDr push : Bool) : Option (ℚ × ℚ) :=
  let bothDragging := minDr && maxDr
  match handle with
  | .hmin =>
    if bothDragging = true ∧ newValue > curMax then none
    else if push = false ∧ maxDr = false ∧ newValue ≥ curMax then
      if curMax ≠ curMin then some (curMax, curMax) else none
    else if push = true ∧ maxDr = false ∧ newValue > curMax then
      if newValue ≠ curMax ∨ newValue ≠ curMin then some (newValue, newValue) else none
    else
      let adjustedValue := min newValue curMax
      if adjustedValue ≠ curMin then some (adjustedValue, curMax) else none
  | .hmax =>
    if bothDragging = true ∧ newValue < curMin then none
    else if push = false ∧ minDr = false ∧ newValue ≤ curMin then
      if curMin ≠ curMax then some (curMin, curMin) else none
    else if push = true ∧ minDr = false ∧ newValue < curMin then
      if newValue ≠ curMin ∨ newValue ≠ curMax then some (newValue, newValue) else none
    else
      let adjustedValue := max newValue curMin
      if adjustedValue ≠ curMax then some (curMin, adjustedValue) else none

/-- The committed handle pair held by the component (uncontrolled mode). -/
structure RState where
  minValue : ℚ
  maxValue : ℚ
deriving DecidableEq, Repr

/-- One user-level operation on the `Range` component: a text-edit commit
(`applyMinValue`/`applyMaxValue` with an already-parsed number), a keyboard
action, or a drag move at a given pointer percentage with the given
dragging-handle flags. -/
inductive ROp
  | editCommit (handle : Handle) (parsed : ℚ)
  | keyAct (action : KbAction) (elementIndex : ℕ)
  | dragMove (handle : Handle) (pct : ℚ) (minDr maxDr : Bool)
deriving DecidableEq, Repr

/-- One step of the component: returns the next state and the pair passed to
`updateValues`/`onChange` (or `none` when no commit happened). -/
def rstep (sfv : Option (ℚ × List ℚ)) (mn mx step : ℚ) (d : ℕ) (allowPush : Bool)
    (s : RState) (op : ROp) : RState × Option (ℚ × ℚ) :=
  match op with
  | .editCommit handle parsed =>
    let calculated := calculateValue parsed sfv mn mx step d
    let p := applyPushLogic handle calculated s.minValue s.maxValue allowPush
    (⟨p.1, p.2⟩, some p)
  | .keyAct action idx =>
    match handleKeyboardAction action idx s.minValue s.maxValue sfv mn mx step allowPush with
    | none => (s, none)
    | some p => (⟨p.1, p.2⟩, some p)
  | .dragMove handle pct minDr maxDr =>
    let newPercentage := max 0 (min 100 pct)
    let newValue := percentageToValue sfv mn mx step d newPercentage
    match handleDragMove handle newValue s.minValue s.maxValue minDr maxDr allowPush with
    | none => (s, none)
    | some p => (⟨p.1, p.2⟩, some p)

/-- The list of pairs handed to `onChange` along a sequence of operations. -/
def commitsOf (sfv : Option (ℚ × List ℚ)) (mn mx step : ℚ) (d : ℕ) (allowPush : Bool) :
    RState → List ROp → List (ℚ × ℚ)
  | _, [] => []
  | s, op :: rest =>
    match rstep sfv mn mx step d allowPush s op with
    | (s1, none) => commitsOf sfv mn mx step d allowPush s1 rest
    | (s1, some p) => p :: commitsOf sfv mn mx step d allowPush s1 rest

/-- Model of `totalSteps` of `useRangeCalculations`: the length of the fixed set, or the
complete-steps count plus one or two depending on whether `max` lands on a
step boundary within `step / 1000`. -/
def totalSteps (fixedValues : Option (ℚ × List ℚ)) (mn mx step : ℚ) : ℤ :=
  match fixedValues with
  | some (h, t) => ((h :: t).length : ℤ)
  | none =>
    let completeSteps := ⌊(mx - mn) / step⌋
    let epsilon := step / 1000
    if absQ (mn + (completeSteps : ℚ) * step - mx) < epsilon then completeSteps + 1
    else completeSteps + 2

/-- Model of `getValueAtIndex` of `useRangeCalculations`: array lookup in fixed mode;
otherwise `min + index*step`, capped at `max` when exceeded, else rounded with
the `10^decimals` scale factor. -/
def getValueAtIndex (fixedValues : Option (ℚ × List ℚ)) (mn mx step : ℚ) (d : ℕ)
    (index : ℤ) : ℚ :=
  match fixedValues with
  | some (h, t) => (h :: t).getD index.toNat 0
  | none =>
    let rawValue := mn + (index : ℚ) * step
    if rawValue > mx then mx
    else (jsRound (rawValue * 10 ^ d) : ℚ) / 10 ^ d

/-- The scanning loop of `getClosestIndex` in fixed mode: keeps the first
index whose distance is strictly smaller than the best so far. -/
def closestIdxAux (value : ℚ) : List ℚ → ℕ → ℚ → ℕ → ℕ
  | [], bestIdx, _, _ => bestIdx
  | x :: rest, bestIdx, bestDiff, i =>
    if absQ (x - value) < bestDiff then closestIdxAux value rest i (absQ (x - value)) (i + 1)
    else closestIdxAux value rest bestIdx bestDiff (i + 1)

/-- Model of `getClosestIndex` of `useRangeCalculations`: linear scan in fixed mode;
`Math.round((value - min) / step)` clamped to `[0, totalSteps - 1]` otherwise. -/
def getClosestIndex (fixedValues : Option (ℚ × List ℚ)) (mn step : ℚ) (tSteps : ℤ)
    (value : ℚ) : ℤ :=
  match fixedValues with
  | some (h, t) => (closestIdxAux value t 0 (absQ (h - value)) 1 : ℤ)
  | none => max 0 (min (tSteps - 1) (jsRound ((value - mn) / step)))

/-- The index computation inside `useRangeState.updateValue`: clamp the target
index, then push the other thumb to keep `minIndexGap = 1`, clamped at the
domain ends. -/
def updateIndices (isMin : Bool) (targetIndex curMinIndex curMaxIndex tSteps : ℤ) :
    ℤ × ℤ :=
  let minIndexGap : ℤ := 1
  let clampedIndex := max 0 (min (tSteps - 1) targetIndex)
  let newMinIndex := if isMin then clampedIndex else curMinIndex
  let newMaxIndex := if isMin then curMaxIndex else clampedIndex
  if newMaxIndex - newMinIndex < minIndexGap then
    if isMin then
      let desiredMaxIndex := newMinIndex + minIndexGap
      if desiredMaxIndex < tSteps then (newMinIndex, desiredMaxIndex)
      else (max 0 (tSteps - 1 - minIndexGap), tSteps - 1)
    else
      let desiredMinIndex := newMaxIndex - minIndexGap
      if 0 ≤ desiredMinIndex then (desiredMinIndex, newMaxIndex)
      else (0, min (tSteps - 1) minIndexGap)
  else (newMinIndex, newMaxIndex)

/-- State of `useDraggable`: the `touchIdentifiers` map (association list) and
the `draggingHandles` set (one flag per handle). -/
structure TrackerState where
  touchOfId : List (ℕ × Handle)
  activeMin : Bool
  activeMax : Bool
deriving DecidableEq, Repr

/-- The size of `draggingHandles`. -/
def activeCount (s : TrackerState) : ℕ :=
  (if s.activeMin then 1 else 0) + (if s.activeMax then 1 else 0)

/-- Model of `handleTouchMap.has(handle)`: is the handle already claimed by a touch? -/
def claimedByTouch (s : TrackerState) (h : Handle) : Bool :=
  s.touchOfId.any (fun p => decide (p.2 = h))

/-- Model of `touchIdentifiers.get(id)`. -/
def lookupTouch (s : TrackerState) (id : ℕ) : Option Handle :=
  (s.touchOfId.find? (fun p => decide (p.1 = id))).map (·.2)

/-- Set or clear membership of a handle in `draggingHandles`. -/
def setActive (s : TrackerState) (h : Handle) (b : Bool) : TrackerState :=
  match h with
  | .hmin => { s with activeMin := b }
  | .hmax => { s with activeMax := b }

/-- Delete a touch identifier from both maps. -/
def removeId (s : TrackerState) (id : ℕ) : TrackerState :=
  { s with touchOfId := s.touchOfId.filter (fun p => decide (p.1 ≠ id)) }

/-- The body of the `changedTouches` loop in `handleMouseUp` for one ended
touch: release the handle of the touch if registered, otherwise do nothing. -/
def releaseOne (s : TrackerState) (id : ℕ) : TrackerState :=
  match lookupTouch s id with
  | none => s
  | some h => setActive (removeId s id) h false

/-- Pointer/touch events consumed by `useDraggable`. -/
inductive TrackerEvent
  | touchStart (id : ℕ) (h : Handle)
  | mouseDown (h : Handle)
  | touchEnd (ids : List ℕ)
  | mouseUp
deriving DecidableEq, Repr

/-- Events handled by `handleMouseUp` (document `mouseup` / `touchend`). -/
def isUpEvent : TrackerEvent → Bool
  | .touchStart _ _ => false
  | .mouseDown _ => false
  | .touchEnd _ => true
  | .mouseUp => true

/-- One step of `useDraggable`: next state, and whether `onDragEnd` fired.
`handleMouseUp` reads the stale `draggingHandles.size` of the render closure,
i.e. the size before the removals of this event, and fires when it is `<= 1`. -/
def trackerStep (s : TrackerState) (e : TrackerEvent) : TrackerState × Bool :=
  match e with
  | .touchStart id h =>
    if claimedByTouch s h then (s, false)
    else (setActive { s with touchOfId := (id, h) :: s.touchOfId } h true, false)
  | .mouseDown h => (setActive s h true, false)
  | .touchEnd ids => (ids.foldl releaseOne s, decide (activeCount s ≤ 1))
  | .mouseUp => (⟨[], false, false⟩, decide (activeCount s ≤ 1))

/-- Hypothesis predicate for the round-trip claim: `v` is on the snap grid.
Fixed mode: `v` is a member of the fixed set.  Continuous mode: `v` is an
integer multiple of `step`, and `decimals` is the decimal precision of `step`
(`step * 10^decimals` is an integer), as the code computes from the decimal
representation of `step`. -/
def OnSnapGrid (sfv : Option (ℚ × List ℚ)) (step : ℚ) (d : ℕ) (v : ℚ) : Prop :=
  match sfv with
  | some (h, t) => v ∈ h :: t
  | none => step ≠ 0 ∧ (∃ z : ℤ, step * 10 ^ d = (z : ℚ)) ∧ ∃ k : ℤ, v = (k : ℚ) * step

theorem absQ_eq_abs (x : ℚ) : absQ x = |x| := by
  unfold absQ
  split_ifs with h
  · exact (abs_of_neg h).symm
  · exact (abs_of_nonneg (le_of_not_lt h)).symm

theorem absQ_nonneg (x : ℚ) : 0 ≤ absQ x := by
  rw [absQ_eq_abs]; exact abs_nonneg x

theorem absQ_le_zero (x : ℚ) (h : absQ x ≤ 0) : x = 0 := by
  rw [absQ_eq_abs] at h
  exact abs_eq_zero.mp (le_antisymm h (abs_nonneg x))

theorem jsRound_intCast (n : ℤ) : jsRound (n : ℚ) = n := by
  rw [jsRound, Int.floor_eq_iff]
  constructor
  · norm_num
  · norm_num

theorem clampQ_eq_self (lo hi x : ℚ) (h1 : lo ≤ x) (h2 : x ≤ hi) :
    clampQ lo hi x = x := by
  rw [clampQ, min_eq_right h2, max_eq_right h1]

theorem clampQ_mem (lo hi x : ℚ) (h : lo ≤ hi) :
    lo ≤ clampQ lo hi x ∧ clampQ lo hi x ≤ hi := by
  constructor
  · exact le_max_left lo _
  · exact max_le h (min_le_left hi x)

theorem pickCloser_cases (q a c : ℚ) : pickCloser q a c = a ∨ pickCloser q a c = c := by
  rw [pickCloser]
  split_ifs <;> simp

theorem pickCloser_dist_left (q a c : ℚ) :
    absQ (pickCloser q a c - q) ≤ absQ (a - q) := by
  rw [pickCloser]
  split_ifs with h
  · exact le_of_lt h
  · exact le_refl _

theorem pickCloser_dist_right (q a c : ℚ) :
    absQ (pickCloser q a c - q) ≤ absQ (c - q) := by
  rw [pickCloser]
  split_ifs with h
  · exact le_refl _
  · exact le_of_not_lt h

theorem closestFixed_cons (q h c : ℚ) (t : List ℚ) :
    closestFixed q h (c :: t) = closestFixed q (pickCloser q h c) t := rfl

theorem closestFixed_mem (q h : ℚ) (t : List ℚ) : closestFixed q h t ∈ h :: t := by
  induction t generalizing h with
  | nil => simp [closestFixed]
  | cons c t ih =>
    rw [closestFixed_cons]
    have hm := ih (pickCloser q h c)
    rcases pickCloser_cases q h c with hp | hp <;> rw [hp] at hm ⊢ <;>
      simp only [List.mem_cons] at hm ⊢ <;> tauto

theorem closestFixed_dist (q h : ℚ) (t : List ℚ) :
    ∀ x ∈ h :: t, absQ (closestFixed q h t - q) ≤ absQ (x - q) := by
  induction t generalizing h with
  | nil =>
    intro x hx
    simp only [List.mem_cons, List.not_mem_nil, or_false] at hx
    subst hx
    simp [closestFixed]
  | cons c t ih =>
    intro x hx
    rw [closestFixed_cons]
    have hd := ih (pickCloser q h c)
    have hself : absQ (closestFixed q (pickCloser q h c) t - q)
        ≤ absQ (pickCloser q h c - q) := hd _ (List.mem_cons_self _ _)
    simp only [List.mem_cons] at hx
    rcases hx with rfl | rfl | hx
    · exact le_trans hself (pickCloser_dist_left q x c)
    · exact le_trans hself (pickCloser_dist_right q h x)
    · exact hd x (List.mem_cons_of_mem _ hx)

theorem closestFixed_tie_le (q h : ℚ) (t : List ℚ)
    (hs : List.Pairwise (· ≤ ·) (h :: t)) :
    ∀ x ∈ h :: t, absQ (x - q) = absQ (closestFixed q h t - q) →
      closestFixed q h t ≤ x := by
  induction t generalizing h with
  | nil =>
    intro x hx _
    simp only [List.mem_cons, List.not_mem_nil, or_false] at hx
    subst hx
    simp [closestFixed]
  | cons c t ih =>
    intro x hx htie
    rw [closestFixed_cons] at htie ⊢
    simp only [List.pairwise_cons] at hs
    obtain ⟨hhle, hcle, hst⟩ := hs
    have hself : absQ (closestFixed q (pickCloser q h c) t - q)
        ≤ absQ (pickCloser q h c - q) :=
      closestFixed_dist q _ t _ (List.mem_cons_self _ _)
    simp only [List.mem_cons] at hx
    by_cases hcond : absQ (c - q) < absQ (h - q)
    · have hp : pickCloser q h c = c := by rw [pickCloser, if_pos hcond]
      rw [hp] at htie hself ⊢
      have hsa : List.Pairwise (· ≤ ·) (c :: t) := List.pairwise_cons.mpr ⟨hcle, hst⟩
      rcases hx with rfl | rfl | hxt
      · exfalso
        have : absQ (closestFixed q c t - q) < absQ (x - q) := lt_of_le_of_lt hself hcond
        rw [htie] at this
        exact lt_irrefl _ this
      · exact ih _ hsa _ (List.mem_cons_self _ _) htie
      · exact ih c hsa x (List.mem_cons_of_mem _ hxt) htie
    · have hp : pickCloser q h c = h := by rw [pickCloser, if_neg hcond]
      rw [hp] at htie hself ⊢
      have hsa : List.Pairwise (· ≤ ·) (h :: t) := by
        rw [List.pairwise_cons]
        exact ⟨fun y hy => hhle y (List.mem_cons_of_mem _ hy), hst⟩
      rcases hx with rfl | rfl | hxt
      · exact ih _ hsa _ (List.mem_cons_self _ _) htie
      · have h1 : absQ (closestFixed q h t - q) ≤ absQ (h - q) := hself
        have h2 : absQ (h - q) ≤ absQ (x - q) := le_of_not_lt hcond
        have h3 : absQ (h - q) = absQ (closestFixed q h t - q) := by
          rw [htie] at h2
          exact le_antisymm h2 h1
        have h4 : closestFixed q h t ≤ h := ih h hsa h (List.mem_cons_self _ _) h3
        exact le_trans h4 (hhle x (List.mem_cons_self _ _))
      · exact ih h hsa x (List.mem_cons_of_mem _ hxt) htie

/-- Claim C3: in fixed-value mode the snapping `reduce` always returns a
member of the (ascending) fixed set, that member is nearest to the query by
absolute difference, and when two members are equidistant the result is no
larger than any other nearest member, i.e. the lower member (the first in
ascending scan order) wins the tie. -/
theorem fixed_snap_nearest_tie_lower (q h : ℚ) (t : List ℚ)
    (hs : List.Pairwise (· ≤ ·) (h :: t)) :
    closestFixed q h t ∈ h :: t
    ∧ (∀ x ∈ h :: t, absQ (closestFixed q h t - q) ≤ absQ (x - q))
    ∧ (∀ x ∈ h :: t, absQ (x - q) = absQ (closestFixed q h t - q) →
        closestFixed q h t ≤ x) :=
  ⟨closestFixed_mem q h t, closestFixed_dist q h t, closestFixed_tie_le q h t hs⟩

theorem fixed_snap_nearest_tie_lower_witness :
    List.Pairwise (· ≤ ·) ([0, 25, 50, 75, 100] : List ℚ)
    ∧ closestFixed (75/2) 0 [25, 50, 75, 100] ∈ ([0, 25, 50, 75, 100] : List ℚ) :=
  ⟨by decide, (fixed_snap_nearest_tie_lower (75/2) 0 [25, 50, 75, 100] (by decide)).1⟩

/-- Claim C4: under push policy (`allowPush = true`), when the min handle is
dragged to a snapped value strictly greater than the current `maxValue` and
the max handle is not drag-active, the committed pair is the dragged value
twice (the other handle is carried along, handles become equal and never
cross); symmetrically for the max handle dragged below `minValue`. -/
theorem push_drag_carries_other (newValue curMin curMax : ℚ) :
    (∀ minDr : Bool, curMax < newValue →
      handleDragMove .hmin newValue curMin curMax minDr false true
        = some (newValue, newValue))
    ∧ (∀ maxDr : Bool, newValue < curMin →
      handleDragMove .hmax newValue curMin curMax false maxDr true
        = some (newValue, newValue)) := by
  constructor <;> intro b hb <;> simp only [handleDragMove] <;>
    split_ifs <;> simp_all

theorem push_drag_carries_other_witness :
    (2 : ℚ) < 8 ∧ handleDragMove .hmin 8 1 2 true false true = some (8, 8) :=
  ⟨by norm_num, (push_drag_carries_other 8 1 2).1 true (by norm_num)⟩

/-- Claim C5: under clamp policy (`allowPush = false`), a drag of the min
handle to a snapped value `≥ maxValue` commits `(maxValue, maxValue)` whenever
it commits at all (no commit happens only when it would be redundant or when
multi-touch crossing prevention discards the move), so the handle stops
exactly at the value of the other handle; symmetrically for the max handle; and
every pair committed by a clamp-policy drag satisfies `min ≤ max`. -/
theorem clamp_drag_stops_at_other (newValue curMin curMax : ℚ)
    (minDr maxDr : Bool) :
    (∀ p, curMax ≤ newValue →
      handleDragMove .hmin newValue curMin curMax minDr maxDr false = some p →
        p = (curMax, curMax))
    ∧ (∀ p, newValue ≤ curMin →
      handleDragMove .hmax newValue curMin curMax minDr maxDr false = some p →
        p = (curMin, curMin))
    ∧ (∀ h p, handleDragMove h newValue curMin curMax minDr maxDr false = some p →
        p.1 ≤ p.2) := by
  refine ⟨?_, ?_, ?_⟩
  · intro p hge hc
    simp only [handleDragMove] at hc
    split_ifs at hc <;> simp_all
  · intro p hle hc
    simp only [handleDragMove] at hc
    split_ifs at hc <;> simp_all
  · intro h p hc
    have key : p = (min newValue curMax, curMax) ∨ p = (curMax, curMax)
        ∨ p = (curMin, max newValue curMin) ∨ p = (curMin, curMin) := by
      cases h <;> simp only [handleDragMove] at hc <;> split_ifs at hc <;>
        first
          | exact Option.noConfusion hc
          | (exfalso; tauto)
          | (simp only [Option.some.injEq] at hc; simp [← hc])
    rcases key with rfl | rfl | rfl | rfl <;> simp [min_le_iff, le_max_iff]

theorem clamp_drag_stops_at_other_witness :
    (5 : ℚ) ≤ 8
    ∧ handleDragMove .hmin 8 1 5 true false false = some (5, 5)
    ∧ ((5 : ℚ), (5 : ℚ)) = ((5 : ℚ), (5 : ℚ)) := by
  refine ⟨by norm_num, ?_, ?_⟩
  · norm_num [handleDragMove]
  · exact (clamp_drag_stops_at_other 8 1 5 true false).1 (5, 5) (by norm_num)
      (by norm_num [handleDragMove])

/-- Claim C2 counterexample: the text-edit commit path (`calculateValue`)
does not compute `clamp(toFixed(round(raw/step)*step))`.  With
`min = 0, max = 100, step = 7` and raw input `150` it commits `98`, while the
claimed formula gives `100`; and with `min = 0, max = 10, step = 4` the raw
input `10` commits `12`, which lies outside `[min, max]`. -/
theorem edit_snap_formula_counterexample :
    calculateValue 150 none 0 100 7 0 = 98
    ∧ clampQ 0 100 (toFixedVal 0 ((jsRound ((150 : ℚ) / 7) : ℚ) * 7)) = 100
    ∧ calculateValue 10 none 0 10 4 0 = 12
    ∧ ¬ ((12 : ℚ) ≤ 10)
    ∧ applyPushLogic .hmin (calculateValue 10 none 0 10 4 0) 0 10 true = (12, 12) := by
  refine ⟨?_, ?_, ?_, by norm_num, ?_⟩ <;>
    norm_num [calculateValue, applyPushLogic, clampQ, toFixedVal, jsRound]

/-- Claim C2 (amended): in continuous mode the pointer-drag snapping path
(`percentageToValue`) equals `round(raw/step)*step`, rounded to the decimal
precision of `step` and clamped to `[min, max]`, and its result always lies in
`[min, max]`; the text-edit commit path (`calculateValue`) instead clamps the
raw input to `[min, max]` first and applies no clamp after snapping, so it
equals `toFixed(round(clamp(raw)/step)*step)` and can leave `[min, max]`. -/
theorem continuous_snap_paths (mn mx step : ℚ) (d : ℕ) (p x : ℚ) (hle : mn ≤ mx) :
    percentageToValue none mn mx step d p
      = clampQ mn mx (toFixedVal d ((jsRound ((mn + p / 100 * (mx - mn)) / step) : ℚ) * step))
    ∧ mn ≤ percentageToValue none mn mx step d p
    ∧ percentageToValue none mn mx step d p ≤ mx
    ∧ calculateValue x none mn mx step d
      = toFixedVal d ((jsRound (clampQ mn mx x / step) : ℚ) * step) := by
  refine ⟨rfl, ?_, ?_, rfl⟩
  · exact (clampQ_mem mn mx _ hle).1
  · exact (clampQ_mem mn mx _ hle).2

theorem continuous_snap_paths_witness :
    (0 : ℚ) ≤ 100
    ∧ percentageToValue none 0 100 5 0 23 = 25
    ∧ (0 : ℚ) ≤ percentageToValue none 0 100 5 0 23 := by
  refine ⟨by norm_num, ?_, (continuous_snap_paths 0 100 5 0 23 0 (by norm_num)).2.1⟩
  norm_num [percentageToValue, clampQ, toFixedVal, jsRound]

/-- Claim C6: for every value in `[min, max]` already on the snap grid (a
member of the fixed set, or an integer multiple of `step` with `decimals` the
decimal precision of `step`), converting to a percentage and back returns the
value itself, in both continuous and fixed-value mode. -/
theorem snapped_value_roundtrip (sfv : Option (ℚ × List ℚ)) (mn mx step : ℚ)
    (d : ℕ) (v : ℚ) (hlt : mn < mx) (hv1 : mn ≤ v) (hv2 : v ≤ mx)
    (hg : OnSnapGrid sfv step d v) :
    percentageToValue sfv mn mx step d (valueToPercentage mn mx v) = v := by
  have hne : mx - mn ≠ 0 := sub_ne_zero.mpr (ne_of_gt hlt)
  have hraw : mn + valueToPercentage mn mx v / 100 * (mx - mn) = v := by
    rw [valueToPercentage]
    field_simp
    ring
  cases sfv with
  | some pr =>
    obtain ⟨h, t⟩ := pr
    simp only [OnSnapGrid] at hg
    simp only [percentageToValue]
    rw [hraw]
    have hd := closestFixed_dist v h t v hg
    have hle0 : absQ (closestFixed v h t - v) ≤ 0 := by simpa [absQ] using hd
    exact sub_eq_zero.mp (absQ_le_zero _ hle0)
  | none =>
    obtain ⟨hstep, ⟨z, hz⟩, ⟨k, hk⟩⟩ := hg
    simp only [percentageToValue]
    rw [hraw]
    have h1 : v / step = (k : ℚ) := by
      rw [hk]
      field_simp
    rw [h1, jsRound_intCast]
    have h2 : (k : ℚ) * step = v := hk.symm
    rw [h2]
    have hpow : (10 : ℚ) ^ d ≠ 0 := by positivity
    have h3 : toFixedVal d v = v := by
      have hv10 : v * 10 ^ d = ((k * z : ℤ) : ℚ) := by
        push_cast
        rw [hk, mul_assoc, hz]
      rw [toFixedVal, hv10, jsRound_intCast]
      push_cast
      rw [← hz, hk]
      field_simp
      ring
    rw [h3, clampQ_eq_self mn mx v hv1 hv2]

theorem snapped_value_roundtrip_witness :
    ((0 : ℚ) < 100 ∧ (0 : ℚ) ≤ 25 ∧ (25 : ℚ) ≤ 100)
    ∧ percentageToValue none 0 100 5 0 (valueToPercentage 0 100 25) = 25 :=
  ⟨⟨by norm_num, by norm_num, by norm_num⟩,
    snapped_value_roundtrip none 0 100 5 0 25 (by norm_num) (by norm_num)
      (by norm_num) ⟨by norm_num, ⟨5, by norm_num⟩, ⟨5, by norm_num⟩⟩⟩

/-- Claim C7 counterexample: a computed-but-unchanged pair is not always
suppressed.  With `min = 0, max = 100, step = 1`, clamp policy and current
pair `(5, 5)`, an ArrowUp on the min thumb computes the unchanged pair
`(5, 5)` and returns it (so `updateValues`/`onChange` fire); under push
policy, Home on the max thumb at `(0, 0)` likewise recommits `(0, 0)`. -/
theorem keyboard_unchanged_commit_counterexample :
    handleKeyboardAction .increment 0 5 5 none 0 10 1 false = some (5, 5)
    ∧ handleKeyboardAction .moveToMin 1 0 0 none 0 10 1 true = some (0, 0) := by
  constructor <;>
    norm_num [handleKeyboardAction, getAdjacentValue, minLimitOf]

/-- Claim C7 (amended): the keyboard handler returns `null` (no commit, no
notification) exactly in these cases: Home on the min thumb already at the
domain minimum; End on the max thumb already at the domain maximum; an arrow
key whose adjacent value equals the current value; and, under clamp policy,
Home on the max thumb or End on the min thumb whose computed value equals the
current one.  It is not true that every unchanged computed pair is
suppressed: push-policy Home on the max thumb and End on the min thumb always
commit, and a clamp-policy arrow at the position of the other handle commits the
unchanged pair. -/
theorem keyboard_noop_cases (sfv : Option (ℚ × List ℚ)) (mn mx step : ℚ)
    (mnV mxV : ℚ) (push : Bool) :
    handleKeyboardAction .moveToMin 0 (minLimitOf sfv mn) mxV sfv mn mx step push = none
    ∧ handleKeyboardAction .moveToMax 1 mnV (maxLimitOf sfv mx) sfv mn mx step push = none
    ∧ (getAdjacentValue mnV true sfv step mn mx = mnV →
        handleKeyboardAction .increment 0 mnV mxV sfv mn mx step push = none)
    ∧ (getAdjacentValue mxV false sfv step mn mx = mxV →
        handleKeyboardAction .decrement 1 mnV mxV sfv mn mx step push = none)
    ∧ (push = false → mxV = max (minLimitOf sfv mn) mnV →
        handleKeyboardAction .moveToMin 1 mnV mxV sfv mn mx step push = none)
    ∧ (push = false → mnV = min (maxLimitOf sfv mx) mxV →
        handleKeyboardAction .moveToMax 0 mnV mxV sfv mn mx step push = none) := by
  refine ⟨?_, ?_, fun h => ?_, fun h => ?_, fun hp h => ?_, fun hp h => ?_⟩ <;>
    simp_all [handleKeyboardAction]

theorem keyboard_noop_cases_witness :
    getAdjacentValue 100 true none 1 0 100 = 100
    ∧ handleKeyboardAction .increment 0 100 100 none 0 100 1 true = none := by
  constructor
  · norm_num [getAdjacentValue]
  · exact (keyboard_noop_cases none 0 100 1 100 100 true).2.2.1
      (by norm_num [getAdjacentValue])

/-- Claim C8: in continuous mode `totalSteps` is `floor((max-min)/step) + 1`
when `min + floor((max-min)/step)*step` lies within `step/1000` of `max`, and
`floor((max-min)/step) + 2` otherwise; in fixed-value mode it is the length
of the fixed set.  Stated for every domain with `max > min` and `step > 0`. -/
theorem totalSteps_formula (mn mx step : ℚ) (_hlt : mn < mx) (_hstep : 0 < step) :
    (absQ (mn + (⌊(mx - mn) / step⌋ : ℚ) * step - mx) < step / 1000 →
      totalSteps none mn mx step = ⌊(mx - mn) / step⌋ + 1)
    ∧ (¬ absQ (mn + (⌊(mx - mn) / step⌋ : ℚ) * step - mx) < step / 1000 →
      totalSteps none mn mx step = ⌊(mx - mn) / step⌋ + 2)
    ∧ ∀ (h : ℚ) (t : List ℚ),
        totalSteps (some (h, t)) mn mx step = ((h :: t).length : ℤ) := by
  refine ⟨fun hcl => ?_, fun hcl => ?_, fun h t => rfl⟩
  · simp only [totalSteps]
    rw [if_pos hcl]
  · simp only [totalSteps]
    rw [if_neg hcl]

theorem totalSteps_formula_witness : totalSteps none (0 : ℚ) 10 2 = 6 := by
  have h := (totalSteps_formula 0 10 2 (by norm_num) (by norm_num)).1
    (by norm_num [absQ])
  rw [h]
  norm_num

/-- Claim C1 (code-bug evaluation): with domain `min = 1, max = 10, step = 4`
(`decimals = 0`), push policy, and the valid starting pair `(1, 10)`,
committing the max text input `1` snaps it to `0` — outside the domain,
because `calculateValue` clamps before stepping and never after — and commits
`(0, 0)`; a subsequent Home key on the min thumb then commits `(1, 0)`, so
`onChange` is invoked with `minValue > maxValue`. -/
theorem ordering_invariant_violation :
    commitsOf none 1 10 4 0 true ⟨1, 10⟩
        [.editCommit .hmax 1, .keyAct .moveToMin 0] = [(0, 0), (1, 0)]
    ∧ ¬ ((1 : ℚ) ≤ 0) := by
  constructor
  · norm_num [commitsOf, rstep, calculateValue, applyPushLogic,
      handleKeyboardAction, minLimitOf, clampQ, toFixedVal, jsRound]
  · norm_num

/-- Claim C9 counterexample: two touches drag both handles; a single
`touchend` event ending both touches empties the active-drag set (a
transition from two active handles to none), yet `onDragEnd` does not fire,
because the handler fires only when the pre-event size is at most 1. -/
theorem drag_end_transition_counterexample :
    activeCount ((trackerStep ((trackerStep ⟨[], false, false⟩
          (.touchStart 1 .hmin)).1) (.touchStart 2 .hmax)).1) = 2
    ∧ (trackerStep ((trackerStep ((trackerStep ⟨[], false, false⟩
          (.touchStart 1 .hmin)).1) (.touchStart 2 .hmax)).1)
        (.touchEnd [1, 2])).2 = false
    ∧ activeCount ((trackerStep ((trackerStep ((trackerStep ⟨[], false, false⟩
          (.touchStart 1 .hmin)).1) (.touchStart 2 .hmax)).1)
        (.touchEnd [1, 2])).1) = 0 := by
  decide

/-- Claim C9 (amended): on every `mouseup`/`touchend` event delivered while
the active-drag set is non-empty, `onDragEnd` fires if and only if exactly one
handle was active immediately before the event.  Hence it fires at every
one-to-zero transition and never when two handles were active — including the
two-to-zero transition of a single touch-end that releases both handles,
which is therefore missed; and an end event that releases no handle still
fires it while one handle stays active. -/
theorem drag_end_fire_condition (s : TrackerState) (e : TrackerEvent)
    (hup : isUpEvent e = true) (hne : 0 < activeCount s) :
    ((trackerStep s e).2 = true ↔ activeCount s = 1) := by
  cases e <;> simp [isUpEvent] at hup <;> simp [trackerStep] <;> omega

theorem drag_end_fire_condition_witness :
    (trackerStep ⟨[(1, Handle.hmin)], true, false⟩ (.touchEnd [1])).2 = true :=
  (drag_end_fire_condition ⟨[(1, Handle.hmin)], true, false⟩ (.touchEnd [1])
    rfl (by decide)).mpr (by decide)

/-- Claim C10 (amended): in the index-based variant, for every current state
and every target index, the state computed by `updateValue` keeps
`maxIndex - minIndex ≥ 1` whenever `totalSteps ≥ 2` (moving one thumb onto or
past the other pushes the other thumb, clamped at the domain ends).  The
committed values can nevertheless be equal, because the index-to-value map is
not injective (see the counterexample). -/
theorem index_gap_invariant (isMin : Bool)
    (targetIndex curMinIndex curMaxIndex tSteps : ℤ) (hT : 2 ≤ tSteps) :
    1 ≤ (updateIndices isMin targetIndex curMinIndex curMaxIndex tSteps).2
        - (updateIndices isMin targetIndex curMinIndex curMaxIndex tSteps).1 := by
  simp only [updateIndices]
  split_ifs <;> simp_all <;> omega

theorem index_gap_invariant_witness :
    1 ≤ (updateIndices true 5 0 9 10).2 - (updateIndices true 5 0 9 10).1 :=
  index_gap_invariant true 5 0 9 10 (by norm_num)

/-- Claim C10 counterexample: with `min = 0.6, max = 10, step = 1`
(`decimals = 0`), `totalSteps = 11`; moving the min thumb to `9.6` from state
`(0, 10)` yields indices `(9, 10)` — the gap is kept — but both indices map to
the value `10` (index 9 rounds `9.6` up to `10`, index 10 is capped at `max`),
so the committed values are equal. -/
theorem equal_committed_values_counterexample :
    totalSteps none (3/5) 10 1 = 11
    ∧ updateIndices true
        (getClosestIndex none (3/5) 1 (totalSteps none (3/5) 10 1) (48/5))
        0 (totalSteps none (3/5) 10 1 - 1) (totalSteps none (3/5) 10 1) = (9, 10)
    ∧ getValueAtIndex none (3/5) 10 1 0 9 = 10
    ∧ getValueAtIndex none (3/5) 10 1 0 10 = 10 := by
  refine ⟨?_, ?_, ?_, ?_⟩ <;>
    norm_num [totalSteps, updateIndices, getClosestIndex, getValueAtIndex,
      absQ, jsRound]

end MangoRange
